import Mathlib

/-!
Shallow embedding of the filtering/aggregation core of
`src/public/app.js` (Head-Teacher-App): the pure logic of `filterData`,
`shouldAutoOpenCategory`, `togglePinned`, `extractYear`, `sectionKey`,
`computeGlobalTotals`, `loadPinned` and `savePinned`, together with
theorems settling the specification claims about them.

JavaScript strings are modelled as `List Char`; the JS runtime pieces the
code leans on (`String.prototype.includes`, `split(/\s+/)`,
`toLowerCase`, template literals rendering `undefined`) are embedded
explicitly below, next to the definition that uses them.
-/

namespace HTApp

/-- A JavaScript string, as its list of characters. -/
abbrev Str : Type := List Char

/-- Literal helper: the characters of a Lean string literal. -/
def strOf (s : String) : Str := s.data

/-- Models `String.prototype.toLowerCase` (ASCII letters; the characters the
app compares are ASCII). -/
def toLowerStr (s : Str) : Str := s.map Char.toLower

/-- JS template-literal rendering of a field that may be `undefined`:
`${x}` produces the string `"undefined"` when `x` is absent. -/
def jsStr : Option Str → Str
  | none => strOf "undefined"
  | some s => s

/-- `needle` occurs at the very start of `hay` (prefix test, used to build
the substring test below). -/
def startsWithSub : Str → Str → Bool
  | [], _ => true
  | _ :: _, [] => false
  | a :: needle, b :: hay => if a = b then startsWithSub needle hay else false

/-- Models `hay.includes(needle)` on JS strings: `needle` occurs
contiguously somewhere in `hay`. -/
def containsSub : Str → Str → Bool
  | [], needle => startsWithSub needle []
  | a :: hay, needle => startsWithSub needle (a :: hay) || containsSub hay needle

/-- Models `s.split(/\s+/)`: the pieces between maximal whitespace runs
(empty pieces included, as JS produces a leading empty piece). -/
def splitWsRaw (l : Str) : List Str :=
  l.foldr
    (fun c acc =>
      if c.isWhitespace then [] :: acc
      else
        match acc with
        | [] => [[c]]
        | w :: ws => (c :: w) :: ws)
    []

/-- `app.js` line 298: `state.searchTerm.toLowerCase().split(/\s+/).filter(Boolean)`. -/
def searchTokens (searchTerm : Str) : List Str :=
  (splitWsRaw (toLowerStr searchTerm)).filter (fun w => w ≠ [])

/-- `app.js` line 299: `(haystack) => searchTerms.every((term) => haystack.includes(term))`. -/
def matchesSearch (searchTerms : List Str) (haystack : Str) : Bool :=
  searchTerms.all (fun term => containsSub haystack term)

/-- A link `{ label, url }`. -/
structure Link where
  label : Str
  url : Str
deriving DecidableEq

/-- A section: status and description may be absent in the JSON dataset
(JS `undefined`). -/
structure Section where
  code : Str
  title : Str
  status : Option Str
  description : Option Str
  links : List Link
deriving DecidableEq

/-- A category of the dataset. The description may be absent. -/
structure Category where
  code : Str
  title : Str
  description : Option Str
  links : List Link
  sections : List Section
deriving DecidableEq

/-- The fields of the global `state` object that the core functions read
(`app.js` lines 4-11). `pinned` is the JS `Set`, modelled as a finite set. -/
structure AppState where
  categories : List Category
  searchTerm : Str
  statusFilter : Str
  categoryFilter : Str
  showPinnedOnly : Bool
  pinned : Finset Str

/-- `app.js` lines 456-458: `` `${categoryCode}-${sectionCode}` ``. -/
def sectionKey (categoryCode sectionCode : Str) : Str :=
  categoryCode ++ '-' :: sectionCode

/-- The regex `/20\d{2}/` matching at the head of the string: two literal
characters `2`, `0` followed by two digits. -/
def yearAt : Str → Option Str
  | a :: b :: c :: d :: _ =>
    if a = '2' ∧ b = '0' ∧ c.isDigit ∧ d.isDigit then some [a, b, c, d] else none
  | _ => none

/-- `/20\d{2}/.exec(text)`: the leftmost match, scanning start positions
left to right. -/
def extractYearFrom : Str → Option Str
  | [] => none
  | a :: rest =>
    match yearAt (a :: rest) with
    | some y => some y
    | none => extractYearFrom rest

/-- `app.js` lines 451-454: `extractYear(text = '')` — the defaulted parameter
turns an `undefined` argument into the empty string, then the first match
of `/20\d{2}/` is returned (`null` when there is none). -/
def extractYear (text : Option Str) : Option Str :=
  extractYearFrom (text.getD [])

/-- A single space, the separator of `Array.prototype.join(' ')`. -/
def spaceStr : Str := strOf " "

/-- `app.js` lines 303-306: the category-level search blob — code, title,
description (template literal, so `undefined` when absent) and the
category-link labels joined by spaces, lowercased. -/
def categorySearchText (category : Category) : Str :=
  toLowerStr
    (category.code ++ spaceStr ++ category.title ++ spaceStr ++
      jsStr category.description ++ spaceStr ++
      List.intercalate spaceStr (category.links.map (fun l => l.label)))

/-- `app.js` lines 329-331: the section-level search blob — category code
and title, section code, title, status, description, and each link's label
and url, joined by spaces, lowercased. -/
def sectionSearchText (category : Category) (s : Section) : Str :=
  toLowerStr
    (category.code ++ spaceStr ++ category.title ++ spaceStr ++ s.code ++ spaceStr ++
      s.title ++ spaceStr ++ jsStr s.status ++ spaceStr ++ jsStr s.description ++ spaceStr ++
      List.intercalate spaceStr (s.links.map (fun l => l.label ++ spaceStr ++ l.url)))

/-- The per-section predicate of `filterData` (`app.js` lines 309-333):
category filter, pinned filter, status filter, then search, with the
source's early returns rendered as nested conditionals. -/
def sectionPasses (st : AppState) (category : Category) (s : Section) : Bool :=
  let searchTerms := searchTokens st.searchTerm
  if st.categoryFilter ≠ strOf "all" ∧ st.categoryFilter ≠ category.code then false
  else if st.showPinnedOnly ∧ sectionKey category.code s.code ∉ st.pinned then false
  else if st.statusFilter ≠ strOf "all" ∧ extractYear s.status ≠ some st.statusFilter then false
  else if searchTokens st.searchTerm = [] then true
  else matchesSearch searchTerms (sectionSearchText category s)

/-- The projection `filterData` builds per category (`app.js` lines
335-339): the category spread with `sections` replaced by the passing
sections and `categoryMatches` added. -/
structure FilteredCategory where
  code : Str
  title : Str
  description : Option Str
  links : List Link
  sections : List Section
  categoryMatches : Bool
deriving DecidableEq

/-- The `.map` body of `filterData` (`app.js` lines 302-340). Note line
307: `categoryMatches` is `searchTerms.length ? matchesSearch(...) : true`,
so it is `true` whenever the tokenized search is empty. -/
def filterCategory (st : AppState) (category : Category) : FilteredCategory :=
  let searchTerms := searchTokens st.searchTerm
  { code := category.code
    title := category.title
    description := category.description
    links := category.links
    sections := category.sections.filter (fun s => sectionPasses st category s)
    categoryMatches :=
      if searchTerms.length ≠ 0 then matchesSearch searchTerms (categorySearchText category)
      else true }

/-- `app.js` lines 297-342: map every category through `filterCategory`,
then keep those with a nonempty section list or `categoryMatches` set
(line 341, JS truthiness of `sections.length`). -/
def filterData (st : AppState) : List FilteredCategory :=
  (st.categories.map (fun category => filterCategory st category)).filter
    (fun category => category.sections.length ≠ 0 ∨ category.categoryMatches = true)

/-- `app.js` lines 358-369: the auto-expand decision, taken on a filtered
category (`render` calls it on the output of `filterData`). -/
def shouldAutoOpenCategory (st : AppState) (category : FilteredCategory) : Bool :=
  if st.categoryFilter ≠ strOf "all" then st.categoryFilter = category.code
  else if st.showPinnedOnly then
    category.sections.any (fun s => sectionKey category.code s.code ∈ st.pinned)
  else if st.searchTerm ≠ [] then
    category.sections.length > 0 ∨ category.categoryMatches = true
  else false

/-- `app.js` lines 441-446, the pure part of `togglePinned`: delete the key
if present, add it otherwise. -/
def togglePinned (pinned : Finset Str) (key : Str) : Finset Str :=
  if key ∈ pinned then pinned.erase key else insert key pinned

/-- Result record of `computeGlobalTotals`. `allocationProgress` is exact
rational arithmetic in place of JS floating point. -/
structure GlobalTotals where
  totalSections : ℕ
  allocatedSections : ℕ
  pinnedCount : ℕ
  allocationProgress : ℚ
deriving DecidableEq

/-- `app.js` lines 536-550: walk every category's sections counting all of
them and those with at least one link, then read the pin set's size and
form the percentage (`0` when there are no sections at all). Only
`state.categories` and `state.pinned` are read. -/
def computeGlobalTotals (st : AppState) : GlobalTotals :=
  let counts :=
    st.categories.foldl
      (fun acc category =>
        category.sections.foldl
          (fun acc2 s => (acc2.1 + 1, acc2.2 + if s.links.length ≠ 0 then 1 else 0))
          acc)
      ((0 : ℕ), (0 : ℕ))
  let totalSections := counts.1
  let allocatedSections := counts.2
  let pinnedCount := st.pinned.card
  let allocationProgress : ℚ :=
    if totalSections ≠ 0 then ((allocatedSections : ℚ) / (totalSections : ℚ)) * 100 else 0
  { totalSections := totalSections
    allocatedSections := allocatedSections
    pinnedCount := pinnedCount
    allocationProgress := allocationProgress }

/-- The category-filter predicate of step (a) in `filterData`
(`app.js` lines 310-312), stated positively: the filter is `"all"` or
equals the owning category's code. -/
def passesCategoryFilter (st : AppState) (category : Category) : Bool :=
  decide (st.categoryFilter = strOf "all" ∨ st.categoryFilter = category.code)

/-- The pinned-only predicate of step (b) (`app.js` line 314), stated
positively: the flag is off or the section's key is pinned. -/
def passesPinnedFilter (st : AppState) (category : Category) (s : Section) : Bool :=
  decide (st.showPinnedOnly = false ∨ sectionKey category.code s.code ∈ st.pinned)

/-- The status predicate of step (c) (`app.js` lines 318-323), stated
positively: the filter is `"all"` or the extracted year equals it. -/
def passesStatusFilter (st : AppState) (s : Section) : Bool :=
  decide (st.statusFilter = strOf "all" ∨ extractYear s.status = some st.statusFilter)

/-- The search predicate of step (d) (`app.js` lines 325-332): every token
of the search term occurs in the section blob. An empty token list passes
vacuously, exactly as the source's `if (!searchTerms.length) return true`. -/
def passesSearchFilter (st : AppState) (category : Category) (s : Section) : Bool :=
  matchesSearch (searchTokens st.searchTerm) (sectionSearchText category s)

/-- Outcome of the external `JSON.parse` call in `loadPinned`
(`app.js` line 61). The platform parser either throws (malformed input),
yields an array — per the persistence contract an array of section-key
strings — or yields some other well-formed JSON value. -/
inductive ParseOutcome where
  | failure
  | arrayOf (items : List Str)
  | notArray
deriving DecidableEq

/-- `app.js` lines 57-67 (`loadPinned`): a missing/empty stored value gives
an empty set; a parse exception is caught (`try`/`catch`, warn only) and
gives an empty set; a non-array payload gives `new Set([])`; an array
payload gives the set of its elements. The function is total: no outcome
raises. -/
def loadPinned (getItemResult : Option Str) (parse : Str → ParseOutcome) : Finset Str :=
  match getItemResult with
  | none => ∅
  | some stored =>
    if stored = [] then ∅
    else
      match parse stored with
      | ParseOutcome.failure => ∅
      | ParseOutcome.arrayOf items => items.toFinset
      | ParseOutcome.notArray => ∅

/-- Observable effect of `savePinned` (`app.js` lines 69-75): whether the
store write went through and whether a warning was logged. -/
structure StoreEffect where
  persisted : Bool
  logged : Bool
deriving DecidableEq

/-- `savePinned`'s `try { setItem } catch { console.warn }`: a failing
write is swallowed and only logged; the function returns normally in both
cases (total — no exception escapes). -/
def savePinned (writeFails : Bool) : StoreEffect :=
  if writeFails then { persisted := false, logged := true }
  else { persisted := true, logged := false }

/-- The full `togglePinned` handler (`app.js` lines 441-449): toggle the
in-memory set, then persist. Whatever the storage write does, the returned
in-memory pin set is the toggled one. -/
def togglePinnedHandler (pinned : Finset Str) (key : Str) (writeFails : Bool) :
    Finset Str × StoreEffect :=
  (togglePinned pinned key, savePinned writeFails)

/-! ### Concrete example data (used by witnesses and the counterexample)

The pinned-filter scenario of the specification: category `A` with
sections `A1` (pinned) and `A2` (unpinned), category `B` with the single
unpinned section `B1`. -/

/-- Section `A1`: pinned in the example state. -/
def exSecA1 : Section :=
  { code := strOf "A1", title := strOf "One", status := some (strOf "Updated 2023")
    description := none, links := [] }

/-- Section `A2`: unpinned, one link. -/
def exSecA2 : Section :=
  { code := strOf "A2", title := strOf "Two", status := some (strOf "Updated 2022")
    description := none, links := [{ label := strOf "lbl", url := strOf "http://x" }] }

/-- Section `B1`: unpinned, description contains `"foo"`. -/
def exSecB1 : Section :=
  { code := strOf "B1", title := strOf "Bee", status := none
    description := some (strOf "has foo inside"), links := [] }

/-- Category `A` with sections `A1`, `A2`. -/
def exCatA : Category :=
  { code := strOf "A", title := strOf "Alpha", description := none
    links := [], sections := [exSecA1, exSecA2] }

/-- Category `B` with the single section `B1`. -/
def exCatB : Category :=
  { code := strOf "B", title := strOf "Beta", description := some (strOf "desc")
    links := [], sections := [exSecB1] }

/-- The scenario state: pinned-only on, no search, no status or category
filter, with only `A-A1` pinned. -/
def exSt : AppState :=
  { categories := [exCatA, exCatB], searchTerm := []
    statusFilter := strOf "all", categoryFilter := strOf "all"
    showPinnedOnly := true, pinned := {sectionKey (strOf "A") (strOf "A1")} }

/-- Extra example states used by witnesses. -/
def wStSearchA : AppState :=
  { categories := [exCatA, exCatB], searchTerm := strOf "foo bar"
    statusFilter := strOf "all", categoryFilter := strOf "all"
    showPinnedOnly := false, pinned := ∅ }

/-- Same as `wStSearchA` with the search tokens permuted. -/
def wStSearchB : AppState :=
  { categories := [exCatA, exCatB], searchTerm := strOf "BAR  foo"
    statusFilter := strOf "all", categoryFilter := strOf "all"
    showPinnedOnly := false, pinned := ∅ }

/-- A state selecting the status year `"2023"`. -/
def wStYear : AppState :=
  { categories := [exCatA], searchTerm := []
    statusFilter := strOf "2023", categoryFilter := strOf "all"
    showPinnedOnly := false, pinned := ∅ }

/-- A state with every filter engaged, same dataset and pins as `exSt`. -/
def wStFilters : AppState :=
  { categories := [exCatA, exCatB], searchTerm := strOf "zzz"
    statusFilter := strOf "2023", categoryFilter := strOf "A"
    showPinnedOnly := false, pinned := {sectionKey (strOf "A") (strOf "A1")} }



theorem startsWithSub_iff_IsPre (t h : Str) : startsWithSub t h = true ↔ t <+: h := by
  induction t generalizing h with
  | nil => simp [startsWithSub, List.nil_prefix]
  | cons a t ih =>
    cases h with
    | nil => simp [startsWithSub, List.prefix_nil]
    | cons b h' =>
      simp only [startsWithSub, List.cons_prefix_cons]
      by_cases hab : a = b
      · simp [hab, ih]
      · simp [hab]

theorem containsSub_iff_IsInf (h t : Str) : containsSub h t = true ↔ t <:+: h := by
  induction h with
  | nil =>
    simp only [containsSub, List.infix_nil]
    cases t <;> simp [startsWithSub]
  | cons a h' ih =>
    simp only [containsSub, Bool.or_eq_true, ih, startsWithSub_iff_IsPre]
    rw [ List.infix_cons_iff]

theorem matchesSearch_perm (ts1 ts2 : List Str) (hay : Str)
    (hp : List.Perm ts1 ts2) : matchesSearch ts1 hay = matchesSearch ts2 hay := by
  rw [Bool.eq_iff_iff]
  simp only [matchesSearch, List.all_eq_true]
  exact ⟨fun H x hx => H x (hp.mem_iff.mpr hx), fun H x hx => H x (hp.mem_iff.mp hx)⟩

theorem extractYearFrom_cons (a : Char) (rest : Str) :
    extractYearFrom (a :: rest) =
      match yearAt (a :: rest) with
      | some y => some y
      | none => extractYearFrom rest := rfl

theorem yearAt_eq_some_iff (l y : Str) :
    yearAt l = some y ↔
      ∃ c d r, c.isDigit ∧ d.isDigit ∧ y = ['2', '0', c, d] ∧ l = '2' :: '0' :: c :: d :: r := by
  match l with
  | [] => simp [yearAt]
  | [a] => simp [yearAt]
  | [a, b] => simp [yearAt]
  | [a, b, c] => simp [yearAt]
  | a :: b :: c :: d :: r =>
    simp only [yearAt]
    constructor
    · intro he
      split_ifs at he with hc
      · obtain ⟨ha, hb, hcd, hd⟩ := hc
        subst ha; subst hb
        exact ⟨c, d, r, hcd, hd, (Option.some_inj.mp he).symm, rfl⟩
    · rintro ⟨c', d', r', hc', hd', hy, hl⟩
      obtain ⟨ha, hb, hcc, hdd, hrr⟩ : a = '2' ∧ b = '0' ∧ c = c' ∧ d = d' ∧ r = r' := by
        injection hl with h1 hl; injection hl with h2 hl; injection hl with h3 hl
        injection hl with h4 hl
        exact ⟨h1, h2, h3, h4, hl⟩
      subst ha; subst hb; subst hcc; subst hdd; subst hy
      simp [hc', hd']

theorem extractYearFrom_eq_some_iff (l y : Str) :
    extractYearFrom l = some y ↔
      ∃ i, yearAt (l.drop i) = some y ∧ ∀ j, j < i → yearAt (l.drop j) = none := by
  induction l with
  | nil => simp [extractYearFrom, yearAt]
  | cons a rest ih =>
    rw [extractYearFrom_cons]
    cases hy : yearAt (a :: rest) with
    | some y' =>
      constructor
      · intro h
        refine ⟨0, ?_, ?_⟩
        · rw [List.drop_zero, hy]
          exact h
        · intro j hj; omega
      · rintro ⟨i, hi, hmin⟩
        cases i with
        | zero =>
          rw [List.drop_zero, hy] at hi
          exact hi
        | succ n =>
          have h0 := hmin 0 (Nat.succ_pos n)
          rw [List.drop_zero, hy] at h0
          cases h0
    | none =>
      rw [ih]
      constructor
      · rintro ⟨i, hi, hmin⟩
        refine ⟨i + 1, by simpa using hi, fun j hj => ?_⟩
        cases j with
        | zero => simpa using hy
        | succ m => simpa using hmin m (by omega)
      · rintro ⟨i, hi, hmin⟩
        cases i with
        | zero =>
          rw [List.drop_zero, hy] at hi
          cases hi
        | succ n =>
          refine ⟨n, by simpa using hi, fun j hj => ?_⟩
          simpa using hmin (j + 1) (by omega)

theorem extractYearFrom_eq_none_iff (l : Str) :
    extractYearFrom l = none ↔ ∀ i, yearAt (l.drop i) = none := by
  induction l with
  | nil => simp [extractYearFrom, yearAt]
  | cons a rest ih =>
    rw [extractYearFrom_cons]
    cases hy : yearAt (a :: rest) with
    | some y' =>
      constructor
      · intro h; cases h
      · intro h
        have h0 := h 0
        rw [List.drop_zero, hy] at h0
        cases h0
    | none =>
      rw [ih]
      constructor
      · intro h i
        cases i with
        | zero => simpa using hy
        | succ n => simpa using h n
      · intro h i
        simpa using h (i + 1)


theorem matchesSearch_nil (hay : Str) : matchesSearch [] hay = true := rfl

theorem sectionPasses_eq_conj (st : AppState) (category : Category) (s : Section) :
    sectionPasses st category s = true ↔
      (passesCategoryFilter st category = true ∧ passesPinnedFilter st category s = true ∧
        passesStatusFilter st s = true ∧ passesSearchFilter st category s = true) := by
  simp only [sectionPasses, passesCategoryFilter, passesPinnedFilter, passesStatusFilter,
    passesSearchFilter, decide_eq_true_eq]
  have hpin : ¬(st.showPinnedOnly = true ∧ sectionKey category.code s.code ∉ st.pinned) →
      (st.showPinnedOnly = false ∨ sectionKey category.code s.code ∈ st.pinned) := by
    intro h2
    rcases Bool.eq_false_or_eq_true st.showPinnedOnly with hb | hb
    · right
      by_contra hnin
      exact h2 ⟨hb, hnin⟩
    · exact Or.inl hb
  split_ifs with h1 h2 h3 h4
  · simp only [Bool.false_eq_true, false_iff]
    tauto
  · simp only [Bool.false_eq_true, false_iff]
    rintro ⟨-, hp, -, -⟩
    rcases h2 with ⟨hon, hnot⟩
    rcases hp with hoff | hin
    · rw [hon] at hoff; cases hoff
    · exact hnot hin
  · simp only [Bool.false_eq_true, false_iff]
    tauto
  · constructor
    · intro _
      refine ⟨by tauto, hpin h2, by tauto, ?_⟩
      rw [h4]
      rfl
    · intro _
      rfl
  · constructor
    · intro hm
      exact ⟨by tauto, hpin h2, by tauto, hm⟩
    · rintro ⟨-, -, -, hm⟩
      exact hm

theorem sectionsCount_foldl (secs : List Section) (p : Nat × Nat) :
    secs.foldl (fun acc2 s => (acc2.1 + 1, acc2.2 + if s.links.length ≠ 0 then 1 else 0)) p
      = (p.1 + secs.length, p.2 + (secs.filter (fun s => s.links ≠ [])).length) := by
  induction secs generalizing p with
  | nil => simp
  | cons s rest ih =>
    simp only [List.foldl_cons, ih, List.filter_cons]
    by_cases hs : s.links = []
    · simp [hs]
      omega
    · have : s.links.length ≠ 0 := by
        simpa [List.length_eq_zero] using hs
      simp [hs, this]
      omega

theorem categoriesCount_foldl (cats : List Category) (p : Nat × Nat) :
    cats.foldl
        (fun acc category =>
          category.sections.foldl
            (fun acc2 s => (acc2.1 + 1, acc2.2 + if s.links.length ≠ 0 then 1 else 0)) acc)
        p
      = (p.1 + (cats.map (fun c => c.sections.length)).sum,
         p.2 + (cats.map (fun c => (c.sections.filter (fun s => s.links ≠ [])).length)).sum) := by
  induction cats generalizing p with
  | nil => simp
  | cons c rest ih =>
    rw [List.foldl_cons, sectionsCount_foldl, ih]
    simp only [List.map_cons, List.sum_cons, Prod.mk.injEq]
    constructor <;> omega

theorem mem_filterData_iff (st : AppState) (fc : FilteredCategory) :
    fc ∈ filterData st ↔
      (fc ∈ st.categories.map (fun category => filterCategory st category) ∧
        (fc.sections.length ≠ 0 ∨ fc.categoryMatches = true)) := by
  simp only [filterData, List.mem_filter, decide_eq_true_eq]

/-- C1 (counterexample): in the pinned-only scenario with empty search,
category `B` — none of whose sections are pinned — still appears in
`filterData`'s output (with an empty section list), because line 307 sets
`categoryMatches` to `true` whenever the tokenized search is empty. -/
theorem filterData_pinnedOnly_counterexample :
    exSt.showPinnedOnly = true ∧ exSt.searchTerm = [] ∧
      exSt.statusFilter = strOf "all" ∧ exSt.categoryFilter = strOf "all" ∧
      sectionKey exCatB.code exSecB1.code ∉ exSt.pinned ∧
      exCatB.sections = [exSecB1] ∧ exCatB ∈ exSt.categories ∧
      filterCategory exSt exCatB ∈ filterData exSt ∧
      (filterCategory exSt exCatB).sections = [] := by
  decide

/-- C1 (amended): a category appears in `filterData`'s output iff it has a
passing section or its `categoryMatches` flag is set, where
`categoryMatches` holds iff the search is inactive (no tokens) or the
category-level blob matches every token. -/
theorem filterData_categorySurvival (st : AppState) (category : Category)
    (hmem : category ∈ st.categories) :
    (filterCategory st category ∈ filterData st ↔
      ((filterCategory st category).sections ≠ [] ∨
        (filterCategory st category).categoryMatches = true)) ∧
    ((filterCategory st category).categoryMatches = true ↔
      (searchTokens st.searchTerm = [] ∨
        matchesSearch (searchTokens st.searchTerm) (categorySearchText category) = true)) := by
  constructor
  · rw [mem_filterData_iff]
    constructor
    · rintro ⟨-, h | h⟩
      · left
        intro hnil
        rw [hnil] at h
        exact h rfl
      · right; exact h
    · intro h
      refine ⟨List.mem_map_of_mem _ hmem, ?_⟩
      rcases h with h | h
      · left
        simpa [Ne, List.length_eq_zero] using h
      · right; exact h
  · simp only [filterCategory]
    split_ifs with h
    · constructor
      · intro hm; exact Or.inr hm
      · rintro (h0 | hm)
        · exact absurd h0 (by simpa [List.length_eq_zero] using h)
        · exact hm
    · simp only [true_iff]
      left
      simpa [List.length_eq_zero] using h

/-- C1 witness: the amended survival rule evaluated on category `B` of the
pinned-only scenario. -/
theorem filterData_categorySurvival_witness :
    exCatB ∈ exSt.categories ∧
      ((filterCategory exSt exCatB ∈ filterData exSt ↔
        ((filterCategory exSt exCatB).sections ≠ [] ∨
          (filterCategory exSt exCatB).categoryMatches = true)) ∧
      ((filterCategory exSt exCatB).categoryMatches = true ↔
        (searchTokens exSt.searchTerm = [] ∨
          matchesSearch (searchTokens exSt.searchTerm) (categorySearchText exCatB) = true))) :=
  ⟨by decide, filterData_categorySurvival exSt exCatB (by decide)⟩

/-- C2: the search predicate is conjunctive — a section passes iff every
lowercased token of the search term is a contiguous substring of the
lowercased section blob — and it is invariant under permutation of the
token list. -/
theorem searchFilter_conjunctive_perm (st : AppState) (category : Category) (s : Section) :
    (passesSearchFilter st category s = true ↔
      ∀ t ∈ searchTokens st.searchTerm, t <:+: sectionSearchText category s) ∧
    (∀ st2 : AppState,
      List.Perm (searchTokens st.searchTerm) (searchTokens st2.searchTerm) →
      passesSearchFilter st category s = passesSearchFilter st2 category s) := by
  constructor
  · simp only [passesSearchFilter, matchesSearch, List.all_eq_true, containsSub_iff_IsInf]
  · intro st2 hp
    simp only [passesSearchFilter]
    exact matchesSearch_perm _ _ _ hp

/-- C2 witness: permuting the tokens of `"foo bar"` into `"BAR  foo"`
leaves the search verdict on section `B1` unchanged. -/
theorem searchFilter_conjunctive_perm_witness :
    List.Perm (searchTokens wStSearchA.searchTerm) (searchTokens wStSearchB.searchTerm) ∧
      passesSearchFilter wStSearchA exCatB exSecB1 = passesSearchFilter wStSearchB exCatB exSecB1 :=
  ⟨by decide, (searchFilter_conjunctive_perm wStSearchA exCatB exSecB1).2 wStSearchB (by decide)⟩

/-- C3: `computeGlobalTotals` reads only `state.categories` and
`state.pinned`; any two states agreeing on those produce identical
totals, whatever their filter fields. -/
theorem computeGlobalTotals_filterIndependent (st1 st2 : AppState)
    (hcats : st1.categories = st2.categories) (hpins : st1.pinned = st2.pinned) :
    computeGlobalTotals st1 = computeGlobalTotals st2 := by
  simp only [computeGlobalTotals, hcats, hpins]

/-- C3 witness: the scenario state with pinned-only on versus a state with
search, year and category filters all engaged — same totals. -/
theorem computeGlobalTotals_filterIndependent_witness :
    exSt.categories = wStFilters.categories ∧ exSt.pinned = wStFilters.pinned ∧
      computeGlobalTotals exSt = computeGlobalTotals wStFilters :=
  ⟨rfl, rfl, computeGlobalTotals_filterIndependent exSt wStFilters rfl rfl⟩

/-- C4: a section is kept by `filterData` iff it is a dataset section
satisfying the conjunction of the four filter predicates (category,
pinned, status, search); a kept section's category survives; and with an
empty search term the search predicate passes every section. -/
theorem filterData_sectionPipeline (st : AppState) (category : Category) (s : Section)
    (hmem : category ∈ st.categories) :
    (s ∈ (filterCategory st category).sections ↔
      s ∈ category.sections ∧ sectionPasses st category s = true) ∧
    (sectionPasses st category s = true ↔
      (passesCategoryFilter st category = true ∧ passesPinnedFilter st category s = true ∧
        passesStatusFilter st s = true ∧ passesSearchFilter st category s = true)) ∧
    (s ∈ (filterCategory st category).sections → filterCategory st category ∈ filterData st) ∧
    (st.searchTerm = [] → passesSearchFilter st category s = true) := by
  refine ⟨?_, sectionPasses_eq_conj st category s, ?_, ?_⟩
  · simp only [filterCategory, List.mem_filter]
  · intro hs
    rw [mem_filterData_iff]
    refine ⟨List.mem_map_of_mem _ hmem, Or.inl ?_⟩
    have hne : (filterCategory st category).sections ≠ [] := List.ne_nil_of_mem hs
    simpa [Ne, List.length_eq_zero] using hne
  · intro h
    simp only [passesSearchFilter, h]
    rfl

/-- C4 witness: the pipeline evaluated on section `A1` of the pinned-only
scenario. -/
theorem filterData_sectionPipeline_witness :
    exCatA ∈ exSt.categories ∧
      (exSecA1 ∈ (filterCategory exSt exCatA).sections ↔
        exSecA1 ∈ exCatA.sections ∧ sectionPasses exSt exCatA exSecA1 = true) ∧
      (sectionPasses exSt exCatA exSecA1 = true ↔
        (passesCategoryFilter exSt exCatA = true ∧ passesPinnedFilter exSt exCatA exSecA1 = true ∧
          passesStatusFilter exSt exSecA1 = true ∧ passesSearchFilter exSt exCatA exSecA1 = true)) ∧
      (exSecA1 ∈ (filterCategory exSt exCatA).sections →
        filterCategory exSt exCatA ∈ filterData exSt) ∧
      (exSt.searchTerm = [] → passesSearchFilter exSt exCatA exSecA1 = true) :=
  ⟨by decide, filterData_sectionPipeline exSt exCatA exSecA1 (by decide)⟩

/-- C5: `extractYear` returns the leftmost occurrence of the pattern
`'2' '0' digit digit` (with the head-match relation `yearAt` characterised
explicitly), `null` when none exists; the given concrete round-trips hold;
and with `statusFilter = "2023"` a section passes `filterData`'s pipeline
iff it passes the other three predicates and its status's extracted year
is `"2023"`. -/
theorem extractYear_leftmostYear :
    (∀ l y : Str, extractYearFrom l = some y ↔
      ∃ i, yearAt (l.drop i) = some y ∧ ∀ j, j < i → yearAt (l.drop j) = none) ∧
    (∀ l : Str, extractYearFrom l = none ↔ ∀ i, yearAt (l.drop i) = none) ∧
    (∀ l y : Str, yearAt l = some y ↔
      ∃ c d r, c.isDigit ∧ d.isDigit ∧ y = ['2', '0', c, d] ∧ l = '2' :: '0' :: c :: d :: r) ∧
    extractYear (some (strOf "Updated 2023")) = some (strOf "2023") ∧
    extractYear (some (strOf "TBD")) = none ∧
    (∀ (st : AppState) (category : Category) (s : Section),
      st.statusFilter = strOf "2023" →
      (sectionPasses st category s = true ↔
        (passesCategoryFilter st category = true ∧ passesPinnedFilter st category s = true ∧
          passesSearchFilter st category s = true ∧
          extractYear s.status = some (strOf "2023")))) := by
  refine ⟨extractYearFrom_eq_some_iff, extractYearFrom_eq_none_iff, yearAt_eq_some_iff,
    by decide, by decide, ?_⟩
  intro st category s hf
  rw [sectionPasses_eq_conj]
  constructor
  · rintro ⟨h1, h2, h3, h4⟩
    refine ⟨h1, h2, h4, ?_⟩
    simp only [passesStatusFilter, decide_eq_true_eq, hf] at h3
    rcases h3 with h | h
    · exact absurd h (by decide)
    · exact h
  · rintro ⟨h1, h2, h4, hy⟩
    refine ⟨h1, h2, ?_, h4⟩
    simp only [passesStatusFilter, decide_eq_true_eq, hf]
    exact Or.inr hy

/-- C5 witness: the status round-trip evaluated at the year state on
section `A1` (status `"Updated 2023"`). -/
theorem extractYear_leftmostYear_witness :
    wStYear.statusFilter = strOf "2023" ∧
      (sectionPasses wStYear exCatA exSecA1 = true ↔
        (passesCategoryFilter wStYear exCatA = true ∧
          passesPinnedFilter wStYear exCatA exSecA1 = true ∧
          passesSearchFilter wStYear exCatA exSecA1 = true ∧
          extractYear exSecA1.status = some (strOf "2023"))) :=
  ⟨rfl, extractYear_leftmostYear.2.2.2.2.2 wStYear exCatA exSecA1 rfl⟩

/-- C6: `togglePinned` is the symmetric difference on a single key — the
key flips, every other key's membership is untouched — and applying it
twice restores the original set. -/
theorem togglePinned_symmDiff (S : Finset Str) (k : Str) :
    (k ∉ S → k ∈ togglePinned S k) ∧
    (k ∈ S → k ∉ togglePinned S k) ∧
    (∀ x, x ≠ k → (x ∈ togglePinned S k ↔ x ∈ S)) ∧
    togglePinned (togglePinned S k) k = S := by
  by_cases hk : k ∈ S
  · refine ⟨fun h => absurd hk h, fun _ => ?_, fun x hx => ?_, ?_⟩
    · simp [togglePinned, hk]
    · simp [togglePinned, hk, Finset.mem_erase, hx]
    · have h1 : togglePinned S k = S.erase k := by simp [togglePinned, hk]
      rw [h1]
      have h2 : k ∉ S.erase k := Finset.not_mem_erase k S
      simp [togglePinned, h2, Finset.insert_erase hk]
  · refine ⟨fun _ => ?_, fun h => absurd h hk, fun x hx => ?_, ?_⟩
    · simp [togglePinned, hk]
    · simp [togglePinned, hk, Finset.mem_insert, hx]
    · have h1 : togglePinned S k = insert k S := by simp [togglePinned, hk]
      rw [h1]
      have h2 : k ∈ insert k S := Finset.mem_insert_self k S
      simp [togglePinned, h2, Finset.erase_insert hk]

/-- C6 witness: toggling `B-B1` on the pin set `{A-A1}` adds it, leaves
`A-A1` alone, and a second toggle restores the set. -/
theorem togglePinned_symmDiff_witness :
    sectionKey (strOf "B") (strOf "B1") ∉ exSt.pinned ∧
      sectionKey (strOf "B") (strOf "B1") ∈
        togglePinned exSt.pinned (sectionKey (strOf "B") (strOf "B1")) :=
  ⟨by decide,
    (togglePinned_symmDiff exSt.pinned (sectionKey (strOf "B") (strOf "B1"))).1 (by decide)⟩

/-- C7: the auto-expand decision has the fixed precedence of
`shouldAutoOpenCategory` — an explicit category filter wins outright, then
the pinned-only flag, then an active search, else collapsed — each earlier
controlling field making the later ones irrelevant. -/
theorem shouldAutoOpen_precedence (st : AppState) (category : FilteredCategory) :
    (st.categoryFilter ≠ strOf "all" →
      (shouldAutoOpenCategory st category = true ↔ st.categoryFilter = category.code)) ∧
    (st.categoryFilter = strOf "all" → st.showPinnedOnly = true →
      (shouldAutoOpenCategory st category = true ↔
        ∃ s ∈ category.sections, sectionKey category.code s.code ∈ st.pinned)) ∧
    (st.categoryFilter = strOf "all" → st.showPinnedOnly = false → st.searchTerm ≠ [] →
      (shouldAutoOpenCategory st category = true ↔
        (category.sections ≠ [] ∨ category.categoryMatches = true))) ∧
    (st.categoryFilter = strOf "all" → st.showPinnedOnly = false → st.searchTerm = [] →
      shouldAutoOpenCategory st category = false) := by
  refine ⟨fun h1 => ?_, fun h1 h2 => ?_, fun h1 h2 h3 => ?_, fun h1 h2 h3 => ?_⟩
  · simp [shouldAutoOpenCategory, h1]
  · simp [shouldAutoOpenCategory, h1, h2, List.any_eq_true]
  · simp only [shouldAutoOpenCategory, h1, h2]
    simp [h3, List.length_pos, Ne]
  · simp [shouldAutoOpenCategory, h1, h2, h3]

/-- C7 witness: the pinned branch decides expansion for filtered category
`A` in the pinned-only scenario. -/
theorem shouldAutoOpen_precedence_witness :
    exSt.categoryFilter = strOf "all" ∧ exSt.showPinnedOnly = true ∧
      (shouldAutoOpenCategory exSt (filterCategory exSt exCatA) = true ↔
        ∃ s ∈ (filterCategory exSt exCatA).sections,
          sectionKey (filterCategory exSt exCatA).code s.code ∈ exSt.pinned) :=
  ⟨rfl, rfl,
    (shouldAutoOpen_precedence exSt (filterCategory exSt exCatA)).2.1 rfl rfl⟩

/-- C8: loading the pin set never raises — a missing key, a parse failure
or a non-array payload all give the empty set, a proper array gives its
elements — and the toggle handler always returns the toggled in-memory
set, a failing storage write being merely logged. -/
theorem pinStorage_resilient :
    (∀ parse, loadPinned none parse = ∅) ∧
    (∀ (stored : Str) (parse : Str → ParseOutcome),
      parse stored = ParseOutcome.failure → loadPinned (some stored) parse = ∅) ∧
    (∀ (stored : Str) (parse : Str → ParseOutcome),
      parse stored = ParseOutcome.notArray → loadPinned (some stored) parse = ∅) ∧
    (∀ (stored : Str) (parse : Str → ParseOutcome) (items : List Str),
      stored ≠ [] → parse stored = ParseOutcome.arrayOf items →
      loadPinned (some stored) parse = items.toFinset) ∧
    (∀ (pinned : Finset Str) (key : Str) (writeFails : Bool),
      (togglePinnedHandler pinned key writeFails).1 = togglePinned pinned key ∧
      (writeFails = true → (togglePinnedHandler pinned key writeFails).2.logged = true)) := by
  refine ⟨fun _ => rfl, fun stored parse h => ?_, fun stored parse h => ?_,
    fun stored parse items hne h => ?_, fun pinned key wf => ⟨rfl, fun hwf => ?_⟩⟩
  · simp only [loadPinned, h]
    split_ifs <;> rfl
  · simp only [loadPinned, h]
    split_ifs <;> rfl
  · simp only [loadPinned, h]
    split_ifs with he
    · exact absurd he hne
    · rfl
  · simp [togglePinnedHandler, savePinned, hwf]

/-- C8 witness: a corrupted read (parse failure) of a nonempty stored
string degrades to the empty pin set. -/
theorem pinStorage_resilient_witness :
    (fun _ : Str => ParseOutcome.failure) (strOf "garbage") = ParseOutcome.failure ∧
      loadPinned (some (strOf "garbage")) (fun _ => ParseOutcome.failure) = ∅ :=
  ⟨rfl, pinStorage_resilient.2.1 (strOf "garbage") (fun _ => ParseOutcome.failure) rfl⟩

/-- C9: the global totals are the section count of the whole dataset, the
count of sections with at least one link, the pin set's size, and the
allocation percentage `allocated / total * 100` — `0` when the dataset
has no sections. -/
theorem computeGlobalTotals_spec (st : AppState) :
    (computeGlobalTotals st).totalSections
        = (st.categories.map (fun c => c.sections.length)).sum ∧
    (computeGlobalTotals st).allocatedSections
        = (st.categories.map
            (fun c => (c.sections.filter (fun s => s.links ≠ [])).length)).sum ∧
    (computeGlobalTotals st).pinnedCount = st.pinned.card ∧
    ((computeGlobalTotals st).totalSections ≠ 0 →
      (computeGlobalTotals st).allocationProgress
        = ((computeGlobalTotals st).allocatedSections : ℚ)
            / ((computeGlobalTotals st).totalSections : ℚ) * 100) ∧
    ((computeGlobalTotals st).totalSections = 0 →
      (computeGlobalTotals st).allocationProgress = 0) := by
  have hc := categoriesCount_foldl st.categories (0, 0)
  have htot : (computeGlobalTotals st).totalSections
      = (st.categories.map (fun c => c.sections.length)).sum := by
    simp only [computeGlobalTotals]
    rw [hc]
    exact Nat.zero_add _
  have hall : (computeGlobalTotals st).allocatedSections
      = (st.categories.map
          (fun c => (c.sections.filter (fun s => s.links ≠ [])).length)).sum := by
    simp only [computeGlobalTotals]
    rw [hc]
    exact Nat.zero_add _
  have hpin : (computeGlobalTotals st).pinnedCount = st.pinned.card := by
    simp only [computeGlobalTotals]
  refine ⟨htot, hall, hpin, ?_, ?_⟩
  · intro h
    simp only [computeGlobalTotals] at h ⊢
    rw [hc] at h ⊢
    simp only [Nat.zero_add] at h ⊢
    rw [if_pos h]
  · intro h
    simp only [computeGlobalTotals] at h ⊢
    rw [hc] at h ⊢
    simp only [Nat.zero_add] at h ⊢
    rw [if_neg (fun hn => hn h)]

/-- C9 witness: the totals of the scenario dataset — three sections, one
allocated, one pin, progress `100/3`. -/
theorem computeGlobalTotals_spec_witness :
    (computeGlobalTotals exSt).totalSections ≠ 0 ∧
      (computeGlobalTotals exSt).allocationProgress
        = ((computeGlobalTotals exSt).allocatedSections : ℚ)
            / ((computeGlobalTotals exSt).totalSections : ℚ) * 100 :=
  ⟨by decide, (computeGlobalTotals_spec exSt).2.2.2.1 (by decide)⟩

/-- C10: a section with no status field — `extractYear` sees `undefined`,
defaulted to the empty string — yields no year and never passes a
specific-year status filter. -/
theorem extractYear_noStatus (st : AppState) (category : Category) (s : Section)
    (hstat : s.status = none) (hfil : st.statusFilter ≠ strOf "all") :
    extractYear none = none ∧ extractYear s.status = none ∧
      sectionPasses st category s = false := by
  refine ⟨by decide, by rw [hstat]; decide, ?_⟩
  have hyear : extractYear s.status ≠ some st.statusFilter := by
    rw [hstat]
    simp [extractYear, extractYearFrom]
  simp only [sectionPasses]
  split_ifs with h1 h2 h3 h4
  · rfl
  · rfl
  · rfl
  · exact absurd ⟨hfil, hyear⟩ h3
  · exact absurd ⟨hfil, hyear⟩ h3

/-- C10 witness: section `B1` (absent status) is rejected when the status
filter selects `"2023"`. -/
theorem extractYear_noStatus_witness :
    exSecB1.status = none ∧ wStYear.statusFilter ≠ strOf "all" ∧
      (extractYear none = none ∧ extractYear exSecB1.status = none ∧
        sectionPasses wStYear exCatB exSecB1 = false) :=
  ⟨rfl, by decide, extractYear_noStatus wStYear exCatB exSecB1 rfl (by decide)⟩

end HTApp
